import Mathlib

/-!
Shallow embedding of the hermie capture/flashcard application core:
the spaced-repetition scheduling engine and the capture/undo coordinator.

Scheduling engine: services/db.ts (gradeCapture, insertCapture, getDueCount,
getNextDueCapture).  Capture coordinator: the Electron main process
(triggerCapture, takeScreenshot, waitForClipboardImage, handleUndoCapture).

JavaScript numbers are modelled as exact rationals (ℚ) for the real-valued
fields (ease, intervalDays) and as integers (ℤ) for epoch-millisecond
timestamps.  Math.round is modelled as jsRound (round half toward +∞).
-/

namespace Hermie

/-- SrsState mirrors the TypeScript union type new | learning | review. -/
inductive SrsState where
  | new : SrsState
  | learning : SrsState
  | review : SrsState
deriving DecidableEq, Repr

/-- Rating mirrors the TypeScript union type again | good | easy. -/
inductive Rating where
  | again : Rating
  | good : Rating
  | easy : Rating
deriving DecidableEq, Repr

/-- ReviewCard mirrors the ReviewCard interface of services/db.ts:
a capture row together with its SRS scheduling fields. -/
structure ReviewCard where
  id : String
  subjectId : String
  imagePath : String
  createdAt : ℤ
  state : SrsState
  dueAt : ℤ
  intervalDays : ℚ
  ease : ℚ
  reps : ℕ
  lapses : ℕ
  lastReviewedAt : Option ℤ
deriving DecidableEq, Repr

/-- Subject row of services/db.ts. -/
structure Subject where
  id : String
  name : String
  createdAt : ℤ
deriving DecidableEq, Repr

-- SRS scheduling constants of services/db.ts
def AGAIN_MINUTES : ℤ := 10
def GOOD_GRAD_DAYS : ℚ := 1
def EASY_GRAD_DAYS : ℚ := 3
def MS_PER_MINUTE : ℤ := 60 * 1000
def MS_PER_DAY : ℤ := 24 * 60 * 60 * 1000

/-- jsRound models the JavaScript Math.round: round half toward +∞. -/
def jsRound (q : ℚ) : ℤ := ⌊q + 1 / 2⌋

/-- applyRating is the pure switch of gradeCapture in services/db.ts: it
computes newState, newDueAt, newIntervalDays, newEase, newReps, newLapses
from the card read from the database, with due_at stored as
Math.round(newDueAt).  last_reviewed_at is written by the UPDATE statement
and is handled in gradeCapture below. -/
def applyRating (c : ReviewCard) (r : Rating) (now : ℤ) : ReviewCard :=
  match r with
  | .again =>
      { c with
        state := .learning
        dueAt := jsRound ((now : ℚ) + (AGAIN_MINUTES : ℚ) * (MS_PER_MINUTE : ℚ))
        ease := max 1.3 (c.ease - 0.2)
        intervalDays := 0
        reps := 0
        lapses := c.lapses + 1 }
  | .good =>
      if c.state = .new ∨ c.state = .learning then
        { c with
          state := .review
          intervalDays := GOOD_GRAD_DAYS
          dueAt := jsRound ((now : ℚ) + GOOD_GRAD_DAYS * (MS_PER_DAY : ℚ))
          ease := min 2.8 (c.ease + 0.05)
          reps := c.reps + 1 }
      else
        { c with
          intervalDays := max 1 (c.intervalDays * c.ease)
          dueAt := jsRound ((now : ℚ) + max 1 (c.intervalDays * c.ease) * (MS_PER_DAY : ℚ))
          ease := min 2.8 (c.ease + 0.02)
          reps := c.reps + 1 }
  | .easy =>
      if c.state = .new ∨ c.state = .learning then
        { c with
          state := .review
          intervalDays := EASY_GRAD_DAYS
          dueAt := jsRound ((now : ℚ) + EASY_GRAD_DAYS * (MS_PER_DAY : ℚ))
          ease := min 2.8 (c.ease + 0.15)
          reps := c.reps + 1 }
      else
        { c with
          intervalDays := max 1 (c.intervalDays * c.ease * 1.3)
          dueAt := jsRound ((now : ℚ) + max 1 (c.intervalDays * c.ease * 1.3) * (MS_PER_DAY : ℚ))
          ease := min 2.8 (c.ease + 0.1)
          reps := c.reps + 1 }

/-- freshCard is the row written by insertCapture in services/db.ts:
VALUES (?, ?, ?, ?, 'new', createdAt, 0, 2.3, 0, 0, NULL), i.e. state new,
due_at = created_at, interval_days = 0, ease = 2.3, reps = 0, lapses = 0,
last_reviewed_at = NULL. -/
def freshCard (id subjectId imagePath : String) (createdAt : ℤ) : ReviewCard :=
  { id := id
    subjectId := subjectId
    imagePath := imagePath
    createdAt := createdAt
    state := .new
    dueAt := createdAt
    intervalDays := 0
    ease := 2.3
    reps := 0
    lapses := 0
    lastReviewedAt := none }

/-- applyGrades folds a sequence of (rating, now) grading steps over a card
using the pure grading switch. -/
def applyGrades (c : ReviewCard) (gs : List (Rating × ℤ)) : ReviewCard :=
  gs.foldl (fun c g => applyRating c g.1 g.2) c

/-- DB models the two tables of services/db.ts. -/
structure DB where
  subjects : List Subject
  captures : List ReviewCard
deriving DecidableEq, Repr

/-- Capture is the basic capture record passed to insertCapture. -/
structure Capture where
  id : String
  subjectId : String
  imagePath : String
  createdAt : ℤ
deriving DecidableEq, Repr

/-- insertCapture of services/db.ts: INSERT a new row with the fixed
initial SRS values, due_at = created_at. -/
def insertCapture (db : DB) (c : Capture) : DB :=
  { db with captures := db.captures ++ [freshCard c.id c.subjectId c.imagePath c.createdAt] }

/-- isDue is the WHERE clause shared by getDueCount and getNextDueCapture:
subject_id = ? AND due_at <= ?. -/
def isDue (subjectId : String) (now : ℤ) (c : ReviewCard) : Bool :=
  c.subjectId = subjectId ∧ c.dueAt ≤ now

/-- getDueCount of services/db.ts: SELECT COUNT(*) FROM captures WHERE
subject_id = ? AND due_at <= ?. -/
def getDueCount (db : DB) (subjectId : String) (now : ℤ) : ℕ :=
  (db.captures.filter (isDue subjectId now)).length

/-- dueBefore is the strict lexicographic order of the ORDER BY clause
due_at ASC, created_at ASC in getNextDueCapture. -/
def dueBefore (a b : ReviewCard) : Bool :=
  a.dueAt < b.dueAt ∨ (a.dueAt = b.dueAt ∧ a.createdAt < b.createdAt)

/-- stepMin keeps the smaller of the accumulator and the next row under
the ORDER BY due_at ASC, created_at ASC order, keeping the earlier row on
a full tie. -/
def stepMin (best : Option ReviewCard) (c : ReviewCard) : Option ReviewCard :=
  match best with
  | none => some c
  | some b => if dueBefore c b then some c else some b

/-- getNextDueCapture of services/db.ts: among rows with subject_id = ?
AND due_at <= ?, the first row under ORDER BY due_at ASC, created_at ASC
(LIMIT 1), or null when the result set is empty. -/
def getNextDueCapture (db : DB) (subjectId : String) (now : ℤ) : Option ReviewCard :=
  (db.captures.filter (isDue subjectId now)).foldl stepMin none

/-- GradeResult models the { ok, error? } result shape of gradeCapture. -/
structure GradeResult where
  ok : Bool
  error : Option String
deriving DecidableEq, Repr

/-- findCard models the SELECT ... FROM captures WHERE id = ? read at the
top of gradeCapture (first row with the given primary key). -/
def findCard (db : DB) (id : String) : Option ReviewCard :=
  db.captures.find? (fun c => c.id = id)

/-- updateRow is the UPDATE statement of gradeCapture applied to one row:
rows WHERE id = ? receive the computed scheduling columns (state, due_at,
interval_days, ease, reps, lapses) and last_reviewed_at = now; other rows
are untouched. -/
def updateRow (u : ReviewCard) (now : ℤ) (id : String) (c : ReviewCard) : ReviewCard :=
  if c.id = id then
    { c with
      state := u.state
      dueAt := u.dueAt
      intervalDays := u.intervalDays
      ease := u.ease
      reps := u.reps
      lapses := u.lapses
      lastReviewedAt := some now }
  else c

/-- gradeCapture of services/db.ts: read the card with the given id
(returning ok:false, error 'Card not found' when absent), run the rating
switch, then UPDATE the scheduling columns of the rows WHERE id = ?. -/
def gradeCapture (db : DB) (id : String) (r : Rating) (now : ℤ) : GradeResult × DB :=
  match findCard db id with
  | none => ({ ok := false, error := some "Card not found" }, db)
  | some card =>
      ({ ok := true, error := none },
       { db with captures := db.captures.map (updateRow (applyRating card r now) now id) })

/-- UNDO_WINDOW_MS constant of the main process. -/
def UNDO_WINDOW_MS : ℤ := 5000

/-- UndoToken models the lastUndo record of the main process:
{ id, absolutePath, expiresAt }. -/
structure UndoToken where
  id : String
  absolutePath : String
  expiresAt : ℤ
deriving DecidableEq, Repr

/-- MainState bundles the mutable state the undo handler touches: the
database, the set of stored image files, and the lastUndo token. -/
structure MainState where
  db : DB
  files : List String
  lastUndo : Option UndoToken
deriving DecidableEq, Repr

/-- handleUndoCapture of the main process: fail when there is no lastUndo
token, its id differs from the requested id, or now is past expiresAt;
otherwise unlink the stored file, DELETE the capture row, clear lastUndo
and return ok. -/
def handleUndoCapture (s : MainState) (id : String) (now : ℤ) : Bool × MainState :=
  match s.lastUndo with
  | none => (false, s)
  | some tok =>
      if tok.id ≠ id ∨ now > tok.expiresAt then (false, s)
      else
        (true,
         { s with
           files := s.files.erase tok.absolutePath
           db := { s.db with captures := s.db.captures.filter (fun c => c.id ≠ id) }
           lastUndo := none })

/-- CapError enumerates the errors thrown by takeScreenshot and its poll
loop in the main process, identified by their message strings. -/
inductive CapError where
  | cancelled : CapError
  | timedOut : CapError
  | noClipboard : CapError
  | unsupported : CapError
deriving DecidableEq, Repr

/-- message gives the error message string thrown by the source for each
capture failure. -/
def CapError.message : CapError → String
  | .cancelled => "Screenshot cancelled"
  | .timedOut => "Screenshot timed out - please try again"
  | .noClipboard => "No screenshot in clipboard"
  | .unsupported => "Screenshot not supported on this platform"

/-- Png stands for the PNG bytes produced by clipboard.readImage().toPNG(). -/
abbrev Png := String

/-- PollTick is one iteration of the waitForClipboardImage loop: the abort
flag as seen by the check at the top of the iteration, and the clipboard
contents as seen by the read after the sleep. -/
structure PollTick where
  aborted : Bool
  clipboard : Option Png
deriving DecidableEq, Repr

/-- waitForClipboardImage of the main process: for up to maxAttempts
iterations, throw 'Screenshot cancelled' when the abort signal is set at
the top of the iteration, otherwise sleep and read the clipboard,
returning the image when one is present; throw timed-out when the
attempts are exhausted.  The list of ticks has one entry per available
iteration (maxAttempts entries). -/
def waitForClipboardImage : List PollTick → Except CapError Png
  | [] => .error .timedOut
  | t :: rest =>
      if t.aborted then .error .cancelled
      else
        match t.clipboard with
        | some img => .ok img
        | none => waitForClipboardImage rest

/-- DarwinEnv is the outside world of the darwin branch of takeScreenshot:
the exit code of the spawned screencapture process and the clipboard
contents after it finishes. -/
structure DarwinEnv where
  exitCode : ℤ
  clipboard : Option Png
deriving DecidableEq, Repr

set_option linter.unusedVariables false in
/-- darwinAcquire is the darwin branch of takeScreenshot in the main
process: spawn screencapture -i -c, reject with 'Screenshot cancelled'
when the child exits nonzero, then read the clipboard and fail when it is
empty.  The branch receives the abort signal but never consults it, which
the unused signalAborted parameter mirrors. -/
def darwinAcquire (signalAborted : Bool) (env : DarwinEnv) : Except CapError Png :=
  if env.exitCode = 0 then
    match env.clipboard with
    | some img => .ok img
    | none => .error .noClipboard
  else .error .cancelled

/-- CaptureOk is the record takeScreenshot returns on success. -/
structure CaptureOk where
  id : String
  subjectId : String
  imagePath : String
  absolutePath : String
  createdAt : ℤ
deriving DecidableEq, Repr

/-- takeScreenshotDarwin is takeScreenshot on darwin: acquire the image
bytes (ignoring the abort signal), then write the PNG file and insert the
capture row before returning. -/
def takeScreenshotDarwin (signalAborted : Bool) (env : DarwinEnv) (uuid subjectDir subjectId : String)
    (createdAt : ℤ) (db : DB) (files : List String) :
    Except CapError CaptureOk × DB × List String :=
  match darwinAcquire signalAborted env with
  | .error e => (.error e, db, files)
  | .ok _ =>
      let absolutePath := subjectDir ++ "/" ++ uuid ++ ".png"
      let relativePath := "images/" ++ subjectId ++ "/" ++ uuid ++ ".png"
      (.ok { id := uuid, subjectId := subjectId, imagePath := relativePath,
             absolutePath := absolutePath, createdAt := createdAt },
       insertCapture db { id := uuid, subjectId := subjectId,
                          imagePath := relativePath, createdAt := createdAt },
       files ++ [absolutePath])

/-- TriggerOutcome is the observable outcome of one triggerCapture call:
the value returned over IPC, the lastUndo state afterwards, the
capture:saved events and the toast notices sent to the window. -/
structure TriggerOutcome where
  returned : Option Capture
  lastUndo : Option UndoToken
  savedEvents : List String
  toasts : List String
deriving DecidableEq, Repr

/-- handleCaptureResult is the tail of triggerCapture in the main process:
on success install lastUndo = { id, absolutePath, expiresAt = now +
UNDO_WINDOW_MS }, send one capture:saved event and return the capture; on
failure return null and send one toast with the error message unless the
message is 'Screenshot cancelled' (aborted means the user started a new
capture). -/
def handleCaptureResult (priorUndo : Option UndoToken)
    (acq : Except CapError CaptureOk) (nowSaved : ℤ) : TriggerOutcome :=
  match acq with
  | .ok r =>
      { returned := some { id := r.id, subjectId := r.subjectId,
                           imagePath := r.imagePath, createdAt := r.createdAt }
        lastUndo := some { id := r.id, absolutePath := r.absolutePath,
                           expiresAt := nowSaved + UNDO_WINDOW_MS }
        savedEvents := [r.id]
        toasts := [] }
  | .error e =>
      { returned := none
        lastUndo := priorUndo
        savedEvents := []
        toasts := if e.message = "Screenshot cancelled" then [] else [e.message] }

/-! ## Invariant predicates and concrete instances used by the theorems -/

/-- easeInv is the numeric invariant of a card: ease within [1.3, 2.8]
and a nonnegative interval. -/
def easeInv (c : ReviewCard) : Prop :=
  1.3 ≤ c.ease ∧ c.ease ≤ 2.8 ∧ 0 ≤ c.intervalDays

/-- PostGradeAt describes a card right after a grade performed at time t:
an again rating leaves it learning with interval 0 and dueAt = t + 10
minutes; a good or easy rating leaves it in review with interval at least
one day and dueAt = round(t + interval days). -/
def PostGradeAt (c : ReviewCard) (t : ℤ) : Prop :=
  (c.state = .learning ∧ c.intervalDays = 0 ∧ c.dueAt = t + 600000) ∨
  (c.state = .review ∧ 1 ≤ c.intervalDays ∧
    c.dueAt = jsRound ((t : ℚ) + c.intervalDays * (MS_PER_DAY : ℚ)))

/-- dbW is a one-card database used to instantiate theorems at concrete
inputs. -/
def dbW : DB :=
  { subjects := [{ id := "inbox", name := "Inbox", createdAt := 0 }]
    captures := [freshCard "a" "inbox" "images/inbox/a.png" 0] }

/-- cardReviewW is a concrete card in review state used to instantiate
theorems at concrete inputs. -/
def cardReviewW : ReviewCard :=
  { id := "b", subjectId := "inbox", imagePath := "images/inbox/b.png"
    createdAt := 3, state := .review, dueAt := 5, intervalDays := 2
    ease := 2.5, reps := 4, lapses := 1, lastReviewedAt := some 4 }

/-- dbW2 is a two-card database used to instantiate the due-query theorems
at concrete inputs. -/
def dbW2 : DB :=
  { subjects := [{ id := "inbox", name := "Inbox", createdAt := 0 }]
    captures := [cardReviewW, freshCard "a" "inbox" "images/inbox/a.png" 0] }

/-- dbInbox is an empty database with only the inbox subject. -/
def dbInbox : DB :=
  { subjects := [{ id := "inbox", name := "Inbox", createdAt := 0 }]
    captures := [] }

/-- tokW is a concrete undo token used to instantiate the undo theorem. -/
def tokW : UndoToken :=
  { id := "a", absolutePath := "base/images/inbox/a.png", expiresAt := 5000 }

/-- stateW is a concrete main-process state holding one stored card and a
live undo token for it. -/
def stateW : MainState :=
  { db := dbW, files := ["base/images/inbox/a.png"], lastUndo := some tokW }

/-! ## Helper lemmas about jsRound -/

lemma jsRound_intCast (n : ℤ) : jsRound ((n : ℚ)) = n := by
  rw [jsRound, Int.floor_int_add]
  norm_num

lemma jsRound_int_add (n m : ℤ) : jsRound ((n : ℚ) + (m : ℚ)) = n + m := by
  rw [← Int.cast_add, jsRound_intCast]

lemma jsRound_mono {x y : ℚ} (h : x ≤ y) : jsRound x ≤ jsRound y :=
  Int.floor_mono (by linarith)

lemma jsRound_again (now : ℤ) :
    jsRound ((now : ℚ) + (AGAIN_MINUTES : ℚ) * (MS_PER_MINUTE : ℚ)) = now + 600000 := by
  have h : ((AGAIN_MINUTES : ℤ) : ℚ) * ((MS_PER_MINUTE : ℤ) : ℚ) = ((600000 : ℤ) : ℚ) := by
    norm_num [AGAIN_MINUTES, MS_PER_MINUTE]
  rw [h, jsRound_int_add]

lemma jsRound_goodGrad (now : ℤ) :
    jsRound ((now : ℚ) + GOOD_GRAD_DAYS * (MS_PER_DAY : ℚ)) = now + MS_PER_DAY := by
  have h : GOOD_GRAD_DAYS * ((MS_PER_DAY : ℤ) : ℚ) = ((MS_PER_DAY : ℤ) : ℚ) := by
    norm_num [GOOD_GRAD_DAYS]
  rw [h, jsRound_int_add]

lemma jsRound_easyGrad (now : ℤ) :
    jsRound ((now : ℚ) + EASY_GRAD_DAYS * (MS_PER_DAY : ℚ)) = now + 3 * MS_PER_DAY := by
  have h : EASY_GRAD_DAYS * ((MS_PER_DAY : ℤ) : ℚ) = ((3 * MS_PER_DAY : ℤ) : ℚ) := by
    norm_num [EASY_GRAD_DAYS, MS_PER_DAY]
  rw [h, jsRound_int_add]

/-! ## Ease and interval invariants of the grading switch -/

lemma applyRating_easeInv (c : ReviewCard) (r : Rating) (now : ℤ) (h : easeInv c) :
    easeInv (applyRating c r now) := by
  obtain ⟨h1, h2, h3⟩ := h
  cases r with
  | again =>
      refine ⟨le_max_left _ _, max_le (by norm_num) (by linarith), le_refl 0⟩
  | good =>
      by_cases hc : c.state = .new ∨ c.state = .learning
      · simp only [easeInv, applyRating, if_pos hc]
        exact ⟨le_min (by norm_num) (by linarith), min_le_left _ _, by norm_num [GOOD_GRAD_DAYS]⟩
      · simp only [easeInv, applyRating, if_neg hc]
        refine ⟨le_min (by norm_num) (by linarith), min_le_left _ _, ?_⟩
        exact le_trans zero_le_one (le_max_left _ _)
  | easy =>
      by_cases hc : c.state = .new ∨ c.state = .learning
      · simp only [easeInv, applyRating, if_pos hc]
        exact ⟨le_min (by norm_num) (by linarith), min_le_left _ _, by norm_num [EASY_GRAD_DAYS]⟩
      · simp only [easeInv, applyRating, if_neg hc]
        refine ⟨le_min (by norm_num) (by linarith), min_le_left _ _, ?_⟩
        exact le_trans zero_le_one (le_max_left _ _)

lemma applyGrades_easeInv (gs : List (Rating × ℤ)) (c : ReviewCard) (h : easeInv c) :
    easeInv (applyGrades c gs) := by
  induction gs generalizing c with
  | nil => exact h
  | cons g gs ih => exact ih _ (applyRating_easeInv c g.1 g.2 h)

lemma freshCard_easeInv (id subjectId imagePath : String) (createdAt : ℤ) :
    easeInv (freshCard id subjectId imagePath createdAt) := by
  refine ⟨by norm_num [freshCard], by norm_num [freshCard], by norm_num [freshCard]⟩

/-- C5: a card created by a capture starts at state new, dueAt = createdAt,
ease = 2.3, intervalDays = 0, reps = 0, lapses = 0, and after any finite
sequence of grade operations its ease stays within [1.3, 2.8] and its
intervalDays stays nonnegative. -/
theorem fresh_grades_ease_interval_bounds (id subjectId imagePath : String)
    (createdAt : ℤ) (gs : List (Rating × ℤ)) :
    (freshCard id subjectId imagePath createdAt).state = .new ∧
    (freshCard id subjectId imagePath createdAt).dueAt = createdAt ∧
    (freshCard id subjectId imagePath createdAt).ease = 2.3 ∧
    (freshCard id subjectId imagePath createdAt).intervalDays = 0 ∧
    (freshCard id subjectId imagePath createdAt).reps = 0 ∧
    (freshCard id subjectId imagePath createdAt).lapses = 0 ∧
    1.3 ≤ (applyGrades (freshCard id subjectId imagePath createdAt) gs).ease ∧
    (applyGrades (freshCard id subjectId imagePath createdAt) gs).ease ≤ 2.8 ∧
    0 ≤ (applyGrades (freshCard id subjectId imagePath createdAt) gs).intervalDays := by
  obtain ⟨h1, h2, h3⟩ :=
    applyGrades_easeInv gs _ (freshCard_easeInv id subjectId imagePath createdAt)
  exact ⟨rfl, rfl, rfl, rfl, rfl, rfl, h1, h2, h3⟩

/-! ## Grading transitions (claims C3 and C4) -/

/-- C3: for every persisted card and every time now, grading it 'again'
succeeds and sets state = learning, intervalDays = 0, dueAt = now + 600000,
ease = max(1.3, ease - 0.2), reps = 0, lapses = lapses + 1 and
lastReviewedAt = now. -/
theorem grade_again_spec (db : DB) (id : String) (now : ℤ) (c : ReviewCard)
    (h : findCard db id = some c) :
    (gradeCapture db id .again now).1 = { ok := true, error := none } ∧
    ∀ c' ∈ (gradeCapture db id .again now).2.captures, c'.id = id →
      c'.state = .learning ∧
      c'.intervalDays = 0 ∧
      c'.dueAt = now + 600000 ∧
      c'.ease = max 1.3 (c.ease - 0.2) ∧
      c'.reps = 0 ∧
      c'.lapses = c.lapses + 1 ∧
      c'.lastReviewedAt = some now := by
  refine ⟨by simp [gradeCapture, h], ?_⟩
  intro c' hmem hid
  simp only [gradeCapture, h, List.mem_map] at hmem
  obtain ⟨a, _, rfl⟩ := hmem
  by_cases ha : a.id = id
  · simp [updateRow, ha, applyRating, jsRound_again]
  · simp only [updateRow, if_neg ha] at hid
    exact absurd hid ha

/-- C4: grading with good or easy follows the transition table: from new
or learning the card graduates to review with a fixed interval of 1 (good)
or 3 (easy) days, dueAt = now plus that many days, and ease increased by
0.05 or 0.15 capped at 2.8; from review the interval becomes
max(1, interval x ease) for good or max(1, interval x ease x 1.3) for
easy, dueAt is now plus the new interval in days rounded to the nearest
millisecond, and ease increases by 0.02 or 0.10 capped at 2.8; in all four
cases reps increases by 1 and lapses is unchanged. -/
theorem grade_good_easy_spec (c : ReviewCard) (now : ℤ) :
    ((c.state = .new ∨ c.state = .learning) →
      (applyRating c .good now).state = .review ∧
      (applyRating c .good now).intervalDays = 1 ∧
      (applyRating c .good now).dueAt = now + MS_PER_DAY ∧
      (applyRating c .good now).ease = min 2.8 (c.ease + 0.05) ∧
      (applyRating c .good now).reps = c.reps + 1 ∧
      (applyRating c .good now).lapses = c.lapses ∧
      (applyRating c .easy now).state = .review ∧
      (applyRating c .easy now).intervalDays = 3 ∧
      (applyRating c .easy now).dueAt = now + 3 * MS_PER_DAY ∧
      (applyRating c .easy now).ease = min 2.8 (c.ease + 0.15) ∧
      (applyRating c .easy now).reps = c.reps + 1 ∧
      (applyRating c .easy now).lapses = c.lapses) ∧
    (c.state = .review →
      (applyRating c .good now).state = .review ∧
      (applyRating c .good now).intervalDays = max 1 (c.intervalDays * c.ease) ∧
      (applyRating c .good now).dueAt
          = jsRound ((now : ℚ) + max 1 (c.intervalDays * c.ease) * (MS_PER_DAY : ℚ)) ∧
      (applyRating c .good now).ease = min 2.8 (c.ease + 0.02) ∧
      (applyRating c .good now).reps = c.reps + 1 ∧
      (applyRating c .good now).lapses = c.lapses ∧
      (applyRating c .easy now).state = .review ∧
      (applyRating c .easy now).intervalDays = max 1 (c.intervalDays * c.ease * 1.3) ∧
      (applyRating c .easy now).dueAt
          = jsRound ((now : ℚ) + max 1 (c.intervalDays * c.ease * 1.3) * (MS_PER_DAY : ℚ)) ∧
      (applyRating c .easy now).ease = min 2.8 (c.ease + 0.1) ∧
      (applyRating c .easy now).reps = c.reps + 1 ∧
      (applyRating c .easy now).lapses = c.lapses) := by
  constructor
  · intro h
    simp only [applyRating, if_pos h, jsRound_goodGrad, jsRound_easyGrad]
    norm_num [GOOD_GRAD_DAYS, EASY_GRAD_DAYS]
  · intro h
    have hc : ¬(c.state = .new ∨ c.state = .learning) := by
      rw [h]; decide
    simp [applyRating, if_neg hc, h]

/-! ## Due-date monotonicity (claim C8) -/

lemma applyRating_post (c : ReviewCard) (r : Rating) (now : ℤ) :
    PostGradeAt (applyRating c r now) now := by
  cases r with
  | again =>
      exact Or.inl ⟨rfl, rfl, jsRound_again now⟩
  | good =>
      by_cases hc : c.state = .new ∨ c.state = .learning
      · refine Or.inr ⟨?_, ?_, ?_⟩
        · simp [applyRating, if_pos hc]
        · simp only [applyRating, if_pos hc]
          norm_num [GOOD_GRAD_DAYS]
        · simp [applyRating, if_pos hc]
      · refine Or.inr ⟨?_, ?_, ?_⟩
        · simp only [applyRating, if_neg hc]
          cases hst : c.state with
          | new => exact absurd (Or.inl hst) hc
          | learning => exact absurd (Or.inr hst) hc
          | review => rfl
        · simp only [applyRating, if_neg hc]
          exact le_max_left _ _
        · simp [applyRating, if_neg hc]
  | easy =>
      by_cases hc : c.state = .new ∨ c.state = .learning
      · refine Or.inr ⟨?_, ?_, ?_⟩
        · simp [applyRating, if_pos hc]
        · simp only [applyRating, if_pos hc]
          norm_num [EASY_GRAD_DAYS]
        · simp [applyRating, if_pos hc]
      · refine Or.inr ⟨?_, ?_, ?_⟩
        · simp only [applyRating, if_neg hc]
          cases hst : c.state with
          | new => exact absurd (Or.inl hst) hc
          | learning => exact absurd (Or.inr hst) hc
          | review => rfl
        · simp only [applyRating, if_neg hc]
          exact le_max_left _ _
        · simp [applyRating, if_neg hc]

lemma dueAt_step_mono (c : ReviewCard) (r : Rating) (t now : ℤ)
    (hE : easeInv c) (hP : PostGradeAt c t) (ht : t ≤ now) (hr : r ≠ .again) :
    c.dueAt ≤ (applyRating c r now).dueAt := by
  obtain ⟨hE1, hE2, hE3⟩ := hE
  have hD : (0 : ℚ) ≤ (MS_PER_DAY : ℚ) := by norm_num [MS_PER_DAY]
  have htq : (t : ℚ) ≤ (now : ℚ) := by exact_mod_cast ht
  cases r with
  | again => exact absurd rfl hr
  | good =>
      rcases hP with ⟨hst, _, hdue⟩ | ⟨hst, hI, hdue⟩
      · have hc : c.state = .new ∨ c.state = .learning := Or.inr hst
        simp only [applyRating, if_pos hc, jsRound_goodGrad]
        rw [hdue]
        simp only [MS_PER_DAY]
        omega
      · have hc : ¬(c.state = .new ∨ c.state = .learning) := by rw [hst]; decide
        simp only [applyRating, if_neg hc]
        rw [hdue]
        apply jsRound_mono
        have hIle : c.intervalDays ≤ max 1 (c.intervalDays * c.ease) := by
          have h1 : c.intervalDays ≤ c.intervalDays * c.ease :=
            le_mul_of_one_le_right hE3 (by linarith)
          exact le_trans h1 (le_max_right _ _)
        have h2 := mul_le_mul_of_nonneg_right hIle hD
        linarith
  | easy =>
      rcases hP with ⟨hst, _, hdue⟩ | ⟨hst, hI, hdue⟩
      · have hc : c.state = .new ∨ c.state = .learning := Or.inr hst
        simp only [applyRating, if_pos hc, jsRound_easyGrad]
        rw [hdue]
        simp only [MS_PER_DAY]
        omega
      · have hc : ¬(c.state = .new ∨ c.state = .learning) := by rw [hst]; decide
        simp only [applyRating, if_neg hc]
        rw [hdue]
        apply jsRound_mono
        have hIle : c.intervalDays ≤ max 1 (c.intervalDays * c.ease * 1.3) := by
          have h1 : c.intervalDays ≤ c.intervalDays * (c.ease * 1.3) :=
            le_mul_of_one_le_right hE3 (by nlinarith)
          rw [← mul_assoc] at h1
          exact le_trans h1 (le_max_right _ _)
        have h2 := mul_le_mul_of_nonneg_right hIle hD
        linarith

lemma applyGrades_append (c : ReviewCard) (l1 l2 : List (Rating × ℤ)) :
    applyGrades c (l1 ++ l2) = applyGrades (applyGrades c l1) l2 := by
  simp [applyGrades, List.foldl_append]

lemma applyGrades_concat_post (gs : List (Rating × ℤ)) (g : Rating × ℤ) :
    ∀ c : ReviewCard, easeInv c →
      ((gs ++ [g]).Chain' (fun x y => x.2 ≤ y.2)) →
      easeInv (applyGrades c (gs ++ [g])) ∧ PostGradeAt (applyGrades c (gs ++ [g])) g.2 := by
  induction gs with
  | nil =>
      intro c hE _
      exact ⟨applyGrades_easeInv [g] c hE, applyRating_post c g.1 g.2⟩
  | cons a gs ih =>
      intro c hE hchain
      exact ih (applyRating c a.1 a.2) (applyRating_easeInv c a.1 a.2 hE) hchain.tail

/-- C8: starting from a freshly captured card, across any sequence of
grades applied at nondecreasing times, dueAt never decreases from one
grade to the next when the later grade is not an again rating. -/
theorem dueAt_monotone_nonagain (id subjectId imagePath : String) (createdAt : ℤ)
    (pre : List (Rating × ℤ)) (a b : Rating × ℤ)
    (hchain : (pre ++ [a, b]).Chain' (fun x y => x.2 ≤ y.2))
    (hb : b.1 ≠ .again) :
    (applyGrades (freshCard id subjectId imagePath createdAt) (pre ++ [a])).dueAt ≤
    (applyGrades (freshCard id subjectId imagePath createdAt) (pre ++ [a, b])).dueAt := by
  have heq : pre ++ [a, b] = (pre ++ [a]) ++ [b] := by simp
  rw [heq] at hchain ⊢
  obtain ⟨hch1, -, hlast⟩ := List.chain'_append.mp hchain
  have hab : a.2 ≤ b.2 := by
    refine hlast a ?_ b rfl
    rw [List.getLast?_concat]
    rfl
  obtain ⟨hE1, hP1⟩ :=
    applyGrades_concat_post pre a (freshCard id subjectId imagePath createdAt)
      (freshCard_easeInv id subjectId imagePath createdAt) hch1
  have hstep :=
    dueAt_step_mono (applyGrades (freshCard id subjectId imagePath createdAt) (pre ++ [a]))
      b.1 a.2 b.2 hE1 hP1 hab hb
  rw [applyGrades_append (freshCard id subjectId imagePath createdAt) (pre ++ [a]) [b]]
  exact hstep

/-- Witness for C8 at a concrete two-grade sequence. -/
theorem dueAt_monotone_nonagain_witness :
    (applyGrades (freshCard "c" "s" "p" 0) [(.again, 0)]).dueAt ≤
    (applyGrades (freshCard "c" "s" "p" 0) [(.again, 0), (.good, 0)]).dueAt :=
  dueAt_monotone_nonagain "c" "s" "p" 0 [] (.again, 0) (.good, 0)
    (by simp [List.chain'_pair]) (by decide)

/-! ## Due queries (claims C6 and C10) -/

lemma dueBefore_iff {a b : ReviewCard} :
    dueBefore a b = true ↔
      (a.dueAt < b.dueAt ∨ (a.dueAt = b.dueAt ∧ a.createdAt < b.createdAt)) := by
  simp [dueBefore]

lemma dueBefore_false_iff {a b : ReviewCard} :
    dueBefore a b = false ↔
      ¬(a.dueAt < b.dueAt ∨ (a.dueAt = b.dueAt ∧ a.createdAt < b.createdAt)) := by
  simp [dueBefore]

lemma isDue_iff {s : String} {now : ℤ} {c : ReviewCard} :
    isDue s now c = true ↔ (c.subjectId = s ∧ c.dueAt ≤ now) := by
  simp [isDue]

lemma foldl_stepMin_some :
    ∀ (l : List ReviewCard) (b : ReviewCard),
      ∃ c, l.foldl stepMin (some b) = some c ∧ (c = b ∨ c ∈ l) := by
  intro l
  induction l with
  | nil => exact fun b => ⟨b, rfl, Or.inl rfl⟩
  | cons a l ih =>
      intro b
      by_cases h : dueBefore a b = true
      · obtain ⟨c, hc, hm⟩ := ih a
        refine ⟨c, ?_, ?_⟩
        · simpa [stepMin, h] using hc
        · rcases hm with rfl | hm
          · exact Or.inr (List.mem_cons_self _ _)
          · exact Or.inr (List.mem_cons_of_mem _ hm)
      · obtain ⟨c, hc, hm⟩ := ih b
        refine ⟨c, ?_, ?_⟩
        · simpa [stepMin, h] using hc
        · rcases hm with rfl | hm
          · exact Or.inl rfl
          · exact Or.inr (List.mem_cons_of_mem _ hm)

lemma foldl_stepMin_min :
    ∀ (l : List ReviewCard) (b c : ReviewCard),
      l.foldl stepMin (some b) = some c →
      dueBefore b c = false ∧ ∀ x ∈ l, dueBefore x c = false := by
  intro l
  induction l with
  | nil =>
      intro b c h
      obtain rfl : b = c := by simpa using h
      refine ⟨by simp [dueBefore], by simp⟩
  | cons a l ih =>
      intro b c h
      by_cases hab : dueBefore a b = true
      · have h2 : l.foldl stepMin (some a) = some c := by simpa [stepMin, hab] using h
        obtain ⟨hac, hall⟩ := ih a c h2
        have hab2 := dueBefore_iff.mp hab
        have hac2 := dueBefore_false_iff.mp hac
        have hbc : dueBefore b c = false := by
          rw [dueBefore_false_iff]
          omega
        refine ⟨hbc, ?_⟩
        intro x hx
        rcases List.mem_cons.mp hx with rfl | hx
        · exact hac
        · exact hall x hx
      · have h2 : l.foldl stepMin (some b) = some c := by simpa [stepMin, hab] using h
        obtain ⟨hbc, hall⟩ := ih b c h2
        have hab2 : ¬(a.dueAt < b.dueAt ∨ (a.dueAt = b.dueAt ∧ a.createdAt < b.createdAt)) :=
          dueBefore_false_iff.mp (by simpa using hab)
        have hbc2 := dueBefore_false_iff.mp hbc
        refine ⟨hbc, ?_⟩
        intro x hx
        rcases List.mem_cons.mp hx with rfl | hx
        · rw [dueBefore_false_iff]
          omega
        · exact hall x hx

lemma getNextDue_cases (db : DB) (s : String) (now : ℤ) :
    (getNextDueCapture db s now = none ∧ db.captures.filter (isDue s now) = []) ∨
    (∃ c, getNextDueCapture db s now = some c ∧
       c ∈ db.captures.filter (isDue s now) ∧
       ∀ x ∈ db.captures.filter (isDue s now), dueBefore x c = false) := by
  cases hl : db.captures.filter (isDue s now) with
  | nil =>
      left
      refine ⟨?_, rfl⟩
      simp only [getNextDueCapture, hl]
      rfl
  | cons a l =>
      right
      obtain ⟨c, hc, hm⟩ := foldl_stepMin_some l a
      obtain ⟨h1, h2⟩ := foldl_stepMin_min l a c hc
      refine ⟨c, ?_, ?_, ?_⟩
      · simp only [getNextDueCapture, hl, List.foldl_cons]
        exact hc
      · rcases hm with rfl | hm
        · exact List.mem_cons_self _ _
        · exact List.mem_cons_of_mem _ hm
      · intro x hx
        rcases List.mem_cons.mp hx with rfl | hx
        · exact h1
        · exact h2 x hx

/-- C6: getDueCount counts exactly the persisted cards of the subject with
dueAt at or before now, and getNextDueCapture returns a due card of the
subject minimal under (dueAt, createdAt), or none exactly when the subject
has no due card. -/
theorem dueCount_nextDue_spec (db : DB) (s : String) (now : ℤ) :
    getDueCount db s now
        = db.captures.countP (fun c => decide (c.subjectId = s ∧ c.dueAt ≤ now)) ∧
    (getNextDueCapture db s now = none ↔
        ∀ c ∈ db.captures, c.subjectId = s → ¬(c.dueAt ≤ now)) ∧
    ∀ c, getNextDueCapture db s now = some c →
      c ∈ db.captures ∧ c.subjectId = s ∧ c.dueAt ≤ now ∧
      ∀ x ∈ db.captures, x.subjectId = s → x.dueAt ≤ now →
        c.dueAt ≤ x.dueAt ∧ (x.dueAt = c.dueAt → c.createdAt ≤ x.createdAt) := by
  have hfilterNil : db.captures.filter (isDue s now) = [] ↔
      ∀ c ∈ db.captures, c.subjectId = s → ¬(c.dueAt ≤ now) := by
    rw [List.filter_eq_nil_iff]
    constructor
    · intro h c hc hs
      have := h c hc
      rw [isDue_iff] at this
      intro hd
      exact this ⟨hs, hd⟩
    · intro h c hc
      rw [isDue_iff]
      rintro ⟨hs, hd⟩
      exact h c hc hs hd
  refine ⟨(List.countP_eq_length_filter _ _).symm, ?_, ?_⟩
  · rcases getNextDue_cases db s now with ⟨hnone, hnil⟩ | ⟨c, hc, hmem, -⟩
    · rw [hnone]
      constructor
      · intro _
        exact hfilterNil.mp hnil
      · intro _
        rfl
    · rw [hc]
      constructor
      · intro h
        exact absurd h (by simp)
      · intro h
        obtain ⟨hcm, hprops⟩ := List.mem_filter.mp hmem
        rw [isDue_iff] at hprops
        exact absurd hprops.2 (h c hcm hprops.1)
  · intro c hc
    rcases getNextDue_cases db s now with ⟨hnone, -⟩ | ⟨d, hd, hmem, hmin⟩
    · rw [hnone] at hc
      exact absurd hc (by simp)
    · rw [hd] at hc
      obtain rfl : d = c := by injection hc
      obtain ⟨hcm, hprops⟩ := List.mem_filter.mp hmem
      rw [isDue_iff] at hprops
      refine ⟨hcm, hprops.1, hprops.2, ?_⟩
      intro x hx hxs hxd
      have hxf : x ∈ db.captures.filter (isDue s now) :=
        List.mem_filter.mpr ⟨hx, isDue_iff.mpr ⟨hxs, hxd⟩⟩
      have := dueBefore_false_iff.mp (hmin x hxf)
      omega

/-- C10: getNextDueCapture returns none exactly when getDueCount is zero,
and whenever getDueCount is positive it returns some due card of the
subject. -/
theorem nextDue_dueCount_consistent (db : DB) (s : String) (now : ℤ) :
    (getNextDueCapture db s now = none ↔ getDueCount db s now = 0) ∧
    (0 < getDueCount db s now →
      ∃ c, getNextDueCapture db s now = some c ∧ c.subjectId = s ∧ c.dueAt ≤ now) := by
  have hcount : getDueCount db s now = 0 ↔ db.captures.filter (isDue s now) = [] := by
    rw [getDueCount, List.length_eq_zero]
  constructor
  · rcases getNextDue_cases db s now with ⟨hnone, hnil⟩ | ⟨c, hc, hmem, -⟩
    · rw [hnone, hcount]
      exact ⟨fun _ => hnil, fun _ => rfl⟩
    · rw [hc, hcount]
      constructor
      · intro h
        exact absurd h (by simp)
      · intro h
        rw [h] at hmem
        exact absurd hmem (by simp)
  · intro hpos
    rcases getNextDue_cases db s now with ⟨-, hnil⟩ | ⟨c, hc, hmem, -⟩
    · rw [getDueCount, hnil] at hpos
      exact absurd hpos (by simp)
    · obtain ⟨-, hprops⟩ := List.mem_filter.mp hmem
      rw [isDue_iff] at hprops
      exact ⟨c, hc, hprops.1, hprops.2⟩

/-! ## Undo semantics (claim C1) -/

/-- C1: undo(id) succeeds exactly when an undo token exists, its cardId
equals id, and now is at or before expiresAt; on success the persisted
card is deleted, the stored image file is released, the token is cleared
(so an immediately repeated undo fails), and on failure the state is not
mutated. -/
theorem undo_spec (s : MainState) (id : String) (now now2 : ℤ) :
    ((handleUndoCapture s id now).1 = true ↔
      ∃ tok, s.lastUndo = some tok ∧ tok.id = id ∧ now ≤ tok.expiresAt) ∧
    (∀ tok, s.lastUndo = some tok → tok.id = id → now ≤ tok.expiresAt →
      (handleUndoCapture s id now).2.db.captures
          = s.db.captures.filter (fun c => c.id ≠ id) ∧
      (handleUndoCapture s id now).2.db.subjects = s.db.subjects ∧
      (handleUndoCapture s id now).2.files = s.files.erase tok.absolutePath ∧
      (handleUndoCapture s id now).2.lastUndo = none ∧
      (handleUndoCapture (handleUndoCapture s id now).2 id now2).1 = false) ∧
    ((handleUndoCapture s id now).1 = false → (handleUndoCapture s id now).2 = s) := by
  cases hu : s.lastUndo with
  | none =>
      refine ⟨?_, ?_, ?_⟩
      · simp [handleUndoCapture, hu]
      · intro tok htok
        exact absurd htok (by simp)
      · intro _
        simp [handleUndoCapture, hu]
  | some tok =>
      by_cases hcond : tok.id ≠ id ∨ now > tok.expiresAt
      · have hstep : handleUndoCapture s id now = (false, s) := by
          simp only [handleUndoCapture, hu]
          rw [if_pos hcond]
        refine ⟨?_, ?_, ?_⟩
        · rw [hstep]
          constructor
          · intro h
            exact absurd h (by simp)
          · rintro ⟨tok2, htok2, hid, hle⟩
            obtain rfl : tok = tok2 := by injection htok2
            rcases hcond with h | h
            · exact absurd hid h
            · exact absurd hle (not_le.mpr h)
        · intro tok2 htok2 hid hle
          obtain rfl : tok = tok2 := by injection htok2
          rcases hcond with h | h
          · exact absurd hid h
          · exact absurd hle (not_le.mpr h)
        · intro _
          rw [hstep]
      · push_neg at hcond
        obtain ⟨hid, hle⟩ := hcond
        have hstep : handleUndoCapture s id now =
            (true,
             { s with
               files := s.files.erase tok.absolutePath
               db := { s.db with
                        captures := s.db.captures.filter (fun c => c.id ≠ id) }
               lastUndo := none }) := by
          simp only [handleUndoCapture, hu]
          rw [if_neg]
          push_neg
          exact ⟨hid, hle⟩
        refine ⟨?_, ?_, ?_⟩
        · rw [hstep]
          exact ⟨fun _ => ⟨tok, rfl, hid, hle⟩, fun _ => rfl⟩
        · intro tok2 htok2 _ _
          obtain rfl : tok = tok2 := by injection htok2
          rw [hstep]
          exact ⟨rfl, rfl, rfl, rfl, by simp [handleUndoCapture]⟩
        · intro h
          rw [hstep] at h
          exact absurd h (by simp)

/-- Witness for C1 at a concrete state with a live token. -/
theorem undo_spec_witness :
    (handleUndoCapture stateW "a" 4000).2.lastUndo = none ∧
    (handleUndoCapture (handleUndoCapture stateW "a" 4000).2 "a" 4001).1 = false :=
  ⟨((undo_spec stateW "a" 4000 4001).2.1 tokW rfl rfl (by decide)).2.2.2.1,
   ((undo_spec stateW "a" 4000 4001).2.1 tokW rfl rfl (by decide)).2.2.2.2⟩

/-! ## Frame conditions of grading (claim C9) -/

/-- C9: a successful grade leaves the subjects table unchanged and, per
capture row, changes only the scheduling fields of rows whose id matches:
every other row is unchanged and the identity fields (id, subjectId,
imagePath, createdAt) of the matching row are preserved. -/
theorem grade_frame_spec (db : DB) (id : String) (r : Rating) (now : ℤ)
    (h : (gradeCapture db id r now).1.ok = true) :
    (gradeCapture db id r now).2.subjects = db.subjects ∧
    (gradeCapture db id r now).2.captures.length = db.captures.length ∧
    ∀ (i : ℕ) (hi : i < db.captures.length)
      (hi2 : i < (gradeCapture db id r now).2.captures.length),
      ((db.captures.get ⟨i, hi⟩).id ≠ id →
        (gradeCapture db id r now).2.captures.get ⟨i, hi2⟩ = db.captures.get ⟨i, hi⟩) ∧
      ((gradeCapture db id r now).2.captures.get ⟨i, hi2⟩).id
          = (db.captures.get ⟨i, hi⟩).id ∧
      ((gradeCapture db id r now).2.captures.get ⟨i, hi2⟩).subjectId
          = (db.captures.get ⟨i, hi⟩).subjectId ∧
      ((gradeCapture db id r now).2.captures.get ⟨i, hi2⟩).imagePath
          = (db.captures.get ⟨i, hi⟩).imagePath ∧
      ((gradeCapture db id r now).2.captures.get ⟨i, hi2⟩).createdAt
          = (db.captures.get ⟨i, hi⟩).createdAt := by
  cases hf : findCard db id with
  | none =>
      rw [gradeCapture] at h
      rw [hf] at h
      exact absurd h (by simp)
  | some card =>
      have hstep : (gradeCapture db id r now).2 =
          { db with
            captures := db.captures.map (updateRow (applyRating card r now) now id) } := by
        rw [gradeCapture, hf]
      rw [hstep]
      refine ⟨rfl, List.length_map _ _, ?_⟩
      intro i hi hi2
      have hget : (db.captures.map (updateRow (applyRating card r now) now id)).get ⟨i, hi2⟩
          = updateRow (applyRating card r now) now id (db.captures.get ⟨i, hi⟩) :=
        List.get_map _
      rw [hget]
      by_cases hcid : (db.captures.get ⟨i, hi⟩).id = id
      · simp only [updateRow]
        rw [if_pos hcid]
        exact ⟨fun hne => absurd hcid hne, rfl, rfl, rfl, rfl⟩
      · simp only [updateRow]
        rw [if_neg hcid]
        exact ⟨fun _ => rfl, rfl, rfl, rfl, rfl⟩

/-- Witness for C9 at a concrete one-card database. -/
theorem grade_frame_spec_witness :
    (gradeCapture dbW "a" Rating.good 7).2.subjects = dbW.subjects :=
  (grade_frame_spec dbW "a" Rating.good 7 (by decide)).1

/-! ## Failure handling of triggerCapture (claim C7) and supersession
(claim C2) -/

lemma capError_message_cancelled (e : CapError) :
    e.message = "Screenshot cancelled" ↔ e = .cancelled := by
  cases e <;> simp [CapError.message]

/-- C7: every failed capture attempt returns no card and emits no
capture:saved event; a cancellation emits no toast, every other failure
emits exactly one toast carrying the error's human-readable message; a
poll loop that sees no abort and no clipboard image on every tick fails
with the timed-out error, which is reported with a toast rather than
swallowed as a cancellation. -/
theorem capture_failure_notices (priorUndo : Option UndoToken) (e : CapError)
    (nowSaved : ℤ) :
    (handleCaptureResult priorUndo (.error e) nowSaved).returned = none ∧
    (handleCaptureResult priorUndo (.error e) nowSaved).savedEvents = [] ∧
    (handleCaptureResult priorUndo (.error e) nowSaved).lastUndo = priorUndo ∧
    (e = .cancelled → (handleCaptureResult priorUndo (.error e) nowSaved).toasts = []) ∧
    (e ≠ .cancelled →
      (handleCaptureResult priorUndo (.error e) nowSaved).toasts = [e.message]) ∧
    (∀ ticks : List PollTick,
      (∀ t ∈ ticks, t.aborted = false ∧ t.clipboard = none) →
      waitForClipboardImage ticks = .error .timedOut) ∧
    (handleCaptureResult priorUndo (.error .timedOut) nowSaved).toasts
      = [CapError.timedOut.message] := by
  refine ⟨rfl, rfl, rfl, ?_, ?_, ?_,
    by simp [handleCaptureResult, CapError.message]⟩
  · intro he
    subst he
    simp [handleCaptureResult, CapError.message]
  · intro he
    have hmsg : e.message ≠ "Screenshot cancelled" := fun h =>
      he ((capError_message_cancelled e).mp h)
    simp [handleCaptureResult, hmsg]
  · intro ticks hticks
    induction ticks with
    | nil => rfl
    | cons t rest ih =>
        obtain ⟨hab, hclip⟩ := hticks t (List.mem_cons_self _ _)
        have hrest : ∀ x ∈ rest, x.aborted = false ∧ x.clipboard = none :=
          fun x hx => hticks x (List.mem_cons_of_mem _ hx)
        simp only [waitForClipboardImage, hab, hclip, Bool.false_eq_true, if_false]
        exact ih hrest

/-- Witness for C7 at the timed-out failure. -/
theorem capture_failure_notices_witness :
    (handleCaptureResult none (.error CapError.timedOut) 0).toasts
      = [CapError.timedOut.message] :=
  (capture_failure_notices none CapError.timedOut 0).2.2.2.2.1 (by decide)

/-- C2 failing input: on darwin the acquisition branch never consults the
abort signal, so a first capture attempt that has been superseded (signal
aborted) still persists a Card, installs the undo token, and emits a
capture:saved event when the user completes the screenshot. -/
theorem superseded_capture_still_saves :
    (takeScreenshotDarwin true { exitCode := 0, clipboard := some "png" }
        "u1" "base/images/inbox" "inbox" 1000 dbInbox []).1
      = Except.ok { id := "u1", subjectId := "inbox",
                    imagePath := "images/inbox/u1.png",
                    absolutePath := "base/images/inbox/u1.png", createdAt := 1000 } ∧
    (takeScreenshotDarwin true { exitCode := 0, clipboard := some "png" }
        "u1" "base/images/inbox" "inbox" 1000 dbInbox []).2.1.captures
      = [freshCard "u1" "inbox" "images/inbox/u1.png" 1000] ∧
    (handleCaptureResult none
        (takeScreenshotDarwin true { exitCode := 0, clipboard := some "png" }
          "u1" "base/images/inbox" "inbox" 1000 dbInbox []).1 1000).savedEvents
      = ["u1"] ∧
    (handleCaptureResult none
        (takeScreenshotDarwin true { exitCode := 0, clipboard := some "png" }
          "u1" "base/images/inbox" "inbox" 1000 dbInbox []).1 1000).lastUndo
      = some { id := "u1", absolutePath := "base/images/inbox/u1.png", expiresAt := 6000 } := by
  refine ⟨?_, ?_, ?_, ?_⟩ <;> rfl

/-! ## Concrete witnesses for the theorems with hypotheses -/

/-- Witness for C3 at a concrete one-card database. -/
theorem grade_again_spec_witness :
    (gradeCapture dbW "a" Rating.again 50).1 = { ok := true, error := none } :=
  (grade_again_spec dbW "a" 50 (freshCard "a" "inbox" "images/inbox/a.png" 0) rfl).1

/-- Witness for C4 at a fresh card and at a review card. -/
theorem grade_good_easy_spec_witness :
    (applyRating (freshCard "a" "inbox" "images/inbox/a.png" 0) .good 50).state
        = SrsState.review ∧
    (applyRating cardReviewW .easy 50).intervalDays
        = max 1 (cardReviewW.intervalDays * cardReviewW.ease * 1.3) :=
  ⟨((grade_good_easy_spec (freshCard "a" "inbox" "images/inbox/a.png" 0) 50).1
      (Or.inl rfl)).1,
   ((grade_good_easy_spec cardReviewW 50).2 rfl).2.2.2.2.2.2.2.1⟩

/-- Witness for C6 at a concrete two-card database. -/
theorem dueCount_nextDue_spec_witness :
    freshCard "a" "inbox" "images/inbox/a.png" 0 ∈ dbW2.captures ∧
    (freshCard "a" "inbox" "images/inbox/a.png" 0).dueAt ≤ 10 :=
  ⟨((dueCount_nextDue_spec dbW2 "inbox" 10).2.2
      (freshCard "a" "inbox" "images/inbox/a.png" 0) rfl).1,
   ((dueCount_nextDue_spec dbW2 "inbox" 10).2.2
      (freshCard "a" "inbox" "images/inbox/a.png" 0) rfl).2.2.1⟩

/-- Witness for C10 at a concrete two-card database. -/
theorem nextDue_dueCount_consistent_witness :
    ∃ c, getNextDueCapture dbW2 "inbox" 10 = some c ∧ c.subjectId = "inbox" ∧ c.dueAt ≤ 10 :=
  (nextDue_dueCount_consistent dbW2 "inbox" 10).2 (by decide)

end Hermie
